import Mathlib

/-
Verification of the freqvault backend (src/backend/nabuedit.py).

The development shallowly embeds the parts of the program the claims are
about: the AES-256 counter-mode cipher used by `encrypt_audio` and
`decrypt_audio` (the `pyaes.AESModeOfOperationCTR` semantics, i.e. standard
FIPS-197 AES used as a keystream generator with a big-endian 16-byte counter
starting at 1), the entropy fetch `fetch_quantum_key`, the recording session
endpoints `start_recording` / `stop_recording` and the capture callback, the
decode probing chain and post-processing of `decrypt_audio`, and the 16-bit
quantization used when writing the WAV container.

Bytes are `Nat` values below 256; machine floats on the byte-probing paths
are modelled exactly by `F64` (a finite rational, or nan / +inf / -inf as
produced by decoding IEEE-754 bit patterns); audio samples elsewhere are
modelled as rationals.
-/

/-! ## AES-256 block cipher (semantics of `pyaes.AES` for a 32-byte key) -/

/-- Multiplication by x in GF(2^8) modulo x^8+x^4+x^3+x+1 (the AES field). -/
def xtime (a : Nat) : Nat :=
  if a.testBit 7 then Nat.xor ((a * 2) % 256) 0x1B else (a * 2) % 256

/-- Repeated `xtime`. -/
def xtimes (n a : Nat) : Nat := Nat.rec a (fun _ acc => xtime acc) n

/-- GF(2^8) product: add shifted copies of `a` for each set bit of `b`. -/
def gmul (a b : Nat) : Nat :=
  (List.range 8).foldl (fun acc i => if b.testBit i then Nat.xor acc (xtimes i a) else acc) 0

/-- GF(2^8) power by repeated multiplication. -/
def gpow (a n : Nat) : Nat := Nat.rec 1 (fun _ acc => gmul acc a) n

/-- GF(2^8) multiplicative inverse (0 maps to 0): a^254. -/
def ginv (a : Nat) : Nat := gpow a 254

/-- Rotate the low 8 bits of `a` left by `n`. -/
def rotl8 (a n : Nat) : Nat :=
  Nat.lor ((a * 2 ^ n) % 256) (a % 256 / 2 ^ (8 - n))

/-- The AES S-box: affine transform of the GF(2^8) inverse. -/
def aes_sbox (a : Nat) : Nat :=
  let b := ginv a
  Nat.xor (Nat.xor (Nat.xor (Nat.xor (Nat.xor b (rotl8 b 1)) (rotl8 b 2)) (rotl8 b 3)) (rotl8 b 4)) 0x63

/-- Round constant: powers of x in GF(2^8). -/
def rcon (j : Nat) : Nat := xtimes (j - 1) 1

/-- XOR two 4-byte words componentwise. -/
def word_xor (a b : List Nat) : List Nat := List.zipWith Nat.xor a b

/-- Apply the S-box to each byte of a word. -/
def sub_word (w : List Nat) : List Nat := w.map aes_sbox

/-- Rotate a 4-byte word left by one byte. -/
def rot_word (w : List Nat) : List Nat := w.drop 1 ++ w.take 1

/-- AES-256 key schedule: the 8 words of the key expanded to 60 words. -/
def aes_expand_key (key : List Nat) : List (List Nat) :=
  (List.range 52).foldl
    (fun ws _ =>
      let i := ws.length
      let prev := ws.getD (i - 1) []
      let temp :=
        if i % 8 = 0 then word_xor (sub_word (rot_word prev)) [rcon (i / 8), 0, 0, 0]
        else if i % 8 = 4 then sub_word prev
        else prev
      ws ++ [word_xor (ws.getD (i - 8) []) temp])
    ((List.range 8).map (fun i => (List.range 4).map (fun j => key.getD (4 * i + j) 0)))

/-- Byte `i` of round key `r` (state laid out with byte `i` at row `i % 4`, column `i / 4`). -/
def round_key_byte (ws : List (List Nat)) (r i : Nat) : Nat :=
  (ws.getD (4 * r + i / 4) []).getD (i % 4) 0

/-- AddRoundKey: XOR the 16-byte state with round key `r`. -/
def add_round_key (ws : List (List Nat)) (r : Nat) (s : List Nat) : List Nat :=
  (List.range 16).map (fun i => Nat.xor (s.getD i 0) (round_key_byte ws r i))

/-- SubBytes: apply the S-box to every state byte. -/
def sub_bytes (s : List Nat) : List Nat :=
  (List.range 16).map (fun i => aes_sbox (s.getD i 0))

/-- ShiftRows: row `r` of the state is rotated left by `r` columns. -/
def shift_rows (s : List Nat) : List Nat :=
  (List.range 16).map (fun i => s.getD (i % 4 + 4 * ((i / 4 + i % 4) % 4)) 0)

/-- MixColumns: each state column is multiplied by the fixed AES polynomial. -/
def mix_columns (s : List Nat) : List Nat :=
  (List.range 16).map (fun i =>
    let c := i / 4
    let a := fun j => s.getD (4 * c + j) 0
    let g2 := fun x => gmul 2 x
    let g3 := fun x => gmul 3 x
    match i % 4 with
    | 0 => Nat.xor (Nat.xor (Nat.xor (g2 (a 0)) (g3 (a 1))) (a 2)) (a 3)
    | 1 => Nat.xor (Nat.xor (Nat.xor (a 0) (g2 (a 1))) (g3 (a 2))) (a 3)
    | 2 => Nat.xor (Nat.xor (Nat.xor (a 0) (a 1)) (g2 (a 2))) (g3 (a 3))
    | _ => Nat.xor (Nat.xor (Nat.xor (g3 (a 0)) (a 1)) (a 2)) (g2 (a 3)))

/-- One middle AES round. -/
def aes_round (ws : List (List Nat)) (r : Nat) (s : List Nat) : List Nat :=
  add_round_key ws r (mix_columns (shift_rows (sub_bytes s)))

/-- AES-256 block encryption: 14 rounds, the last one without MixColumns. -/
def aes_encrypt_block (key block : List Nat) : List Nat :=
  let ws := aes_expand_key key
  let s0 := add_round_key ws 0 block
  let sm := (List.range 13).foldl (fun s r => aes_round ws (r + 1) s) s0
  add_round_key ws 14 (shift_rows (sub_bytes sm))

/-! ## Counter mode (`pyaes.AESModeOfOperationCTR` with the default counter) -/

/-- The 16-byte big-endian representation of the counter value `v`. -/
def ctr_counter_bytes (v : Nat) : List Nat :=
  (List.range 16).map (fun i => v / 256 ^ (15 - i) % 256)

/-- The first `n` keystream bytes: AES encryptions of counter values 1, 2, ...
(pyaes starts its default counter at initial value 1). -/
def ctr_keystream (key : List Nat) (n : Nat) : List Nat :=
  (((List.range ((n + 15) / 16)).map
      (fun i => aes_encrypt_block key (ctr_counter_bytes (1 + i)))).flatten).take n

/-- CTR encryption by a freshly initialized cipher: XOR the payload with the
keystream, one byte per payload byte (`aes.encrypt(audio_bytes)` in
`encrypt_audio`). -/
def aes_ctr_encrypt (key data : List Nat) : List Nat :=
  List.zipWith Nat.xor data (ctr_keystream key data.length)

/-- CTR decryption by a freshly initialized cipher; in pyaes `decrypt` is
literally the same operation as `encrypt` (`aes_decrypt.decrypt(...)` in
`decrypt_audio`). -/
def aes_ctr_decrypt (key data : List Nat) : List Nat :=
  aes_ctr_encrypt key data

theorem add_round_key_length (ws : List (List Nat)) (r : Nat) (s : List Nat) :
    (add_round_key ws r s).length = 16 := by
  simp [add_round_key]

theorem aes_encrypt_block_length (key block : List Nat) :
    (aes_encrypt_block key block).length = 16 := by
  simp [aes_encrypt_block, add_round_key_length]

theorem ctr_keystream_length (key : List Nat) (n : Nat) :
    (ctr_keystream key n).length = n := by
  have hj : (((List.range ((n + 15) / 16)).map
      (fun i => aes_encrypt_block key (ctr_counter_bytes (1 + i)))).flatten).length
      = 16 * ((n + 15) / 16) := by
    rw [List.length_flatten]
    have : ((List.range ((n + 15) / 16)).map
        (fun i => aes_encrypt_block key (ctr_counter_bytes (1 + i)))).map List.length
        = List.replicate ((n + 15) / 16) 16 := by
      rw [List.map_map]
      have : (List.length ∘ fun i => aes_encrypt_block key (ctr_counter_bytes (1 + i)))
          = fun _ => 16 := by
        funext i
        simp [Function.comp, aes_encrypt_block_length]
      rw [this]
      simp [List.map_const']
    rw [this, List.sum_replicate, smul_eq_mul]
    ring
  have hle : n ≤ 16 * ((n + 15) / 16) := by
    have := Nat.div_add_mod (n + 15) 16
    have := Nat.mod_lt (n + 15) (show 0 < 16 by norm_num)
    omega
  simp [ctr_keystream, hj]
  omega

theorem zipWith_xor_cancel :
    ∀ (p ks : List Nat), p.length ≤ ks.length →
      List.zipWith Nat.xor (List.zipWith Nat.xor p ks) ks = p := by
  intro p
  induction p with
  | nil => intro ks _; simp
  | cons a p ih =>
    intro ks hlen
    cases ks with
    | nil => simp at hlen
    | cons b ks =>
      simp only [List.zipWith_cons_cons, List.cons.injEq]
      constructor
      · show a ^^^ b ^^^ b = a
        rw [Nat.xor_assoc, Nat.xor_self, Nat.xor_zero]
      · exact ih ks (by simpa using hlen)

theorem aes_ctr_encrypt_length (key data : List Nat) :
    (aes_ctr_encrypt key data).length = data.length := by
  simp [aes_ctr_encrypt, ctr_keystream_length]

/-- Claim C1: for every byte sequence `p` (any length, including lengths not
aligned to the 16-byte block size) and every valid 32-byte key `k`,
decrypting the encryption of `p` under `k` with a freshly initialized
counter-mode cipher returns `p` exactly. -/
theorem C1_ctr_roundtrip (p k : List Nat) (hk : k.length = 32) :
    aes_ctr_decrypt k (aes_ctr_encrypt k p) = p := by
  clear hk
  unfold aes_ctr_decrypt
  conv_lhs => rw [aes_ctr_encrypt, aes_ctr_encrypt_length]
  rw [aes_ctr_encrypt]
  exact zipWith_xor_cancel p (ctr_keystream k p.length) (by rw [ctr_keystream_length])

/-- Witness for C1 at a concrete 32-byte key and a length-3 payload. -/
theorem C1_ctr_roundtrip_witness :
    (List.replicate 32 7).length = 32 ∧
      aes_ctr_decrypt (List.replicate 32 7)
        (aes_ctr_encrypt (List.replicate 32 7) [10, 20, 30]) = [10, 20, 30] :=
  ⟨by decide, C1_ctr_roundtrip [10, 20, 30] (List.replicate 32 7) (by decide)⟩

/-! ## Entropy fetch (`fetch_quantum_key`)

One remote attempt is abstracted by a `QrngOutcome`: the network call / JSON
parse may raise (`netError`, caught by the bare `except`), the endpoint may
report `success` false (`failureFlag`), or it may report success with a list
of values, which `bytes(data['data'])` converts — raising (and hence failing
the attempt) when some value is not a byte. -/

inductive QrngOutcome
  | netError
  | failureFlag
  | success (vals : List Nat)
deriving DecidableEq

/-- The key produced by one attempt, if any.  A successful response is
converted by `bytes(data['data'])`, which raises inside the `try` block when
a value is out of byte range; no length check is performed. -/
def attempt_key (o : QrngOutcome) : Option (List Nat) :=
  match o with
  | .success vals => if vals.all (fun v => v < 256) then some vals else none
  | _ => none

/-- The local fallback `os.urandom(size)`: `size` bytes drawn from the local
secure generator, modelled by an arbitrary byte stream `urandom`. -/
def os_urandom (urandom : Nat → Nat) (size : Nat) : List Nat :=
  (List.range size).map (fun i => urandom i % 256)

/-- The retry loop of `fetch_quantum_key`, starting at attempt index `a` with
`rem` attempts remaining: the first accepted response is returned unchanged;
once attempts are exhausted the local fallback is used. -/
def fetch_from (size : Nat) (responses : Nat → QrngOutcome) (urandom : Nat → Nat) :
    Nat → Nat → List Nat
  | _, 0 => os_urandom urandom size
  | a, rem + 1 =>
    match attempt_key (responses a) with
    | some vals => vals
    | none => fetch_from size responses urandom (a + 1) rem

/-- `fetch_quantum_key(size, retries)`: up to `retries` attempts against the
QRNG endpoint, then the local fallback. -/
def fetch_quantum_key (size retries : Nat) (responses : Nat → QrngOutcome)
    (urandom : Nat → Nat) : List Nat :=
  fetch_from size responses urandom 0 retries

/-- Claim C3 counterexample: the remote endpoint reports success with an
empty data list; `fetch_quantum_key 32 3` accepts it without a length check
and returns 0 bytes instead of 32. -/
theorem C3_length_counterexample :
    (fetch_quantum_key 32 3 (fun _ => QrngOutcome.success []) (fun _ => 0)).length = 0 ∧
      (0 : Nat) ≠ 32 := by
  constructor
  · rfl
  · decide

/-- Claim C3 (amended): a successful response is accepted without any length
check, so `fetch` is only guaranteed to return `size` bytes when every
response the loop could accept carries exactly `size` values (in particular
when every attempt fails, via the fallback). -/
theorem C3_fetch_length (size retries : Nat) (responses : Nat → QrngOutcome)
    (urandom : Nat → Nat)
    (h : ∀ i vals, attempt_key (responses i) = some vals → vals.length = size) :
    (fetch_quantum_key size retries responses urandom).length = size := by
  have main : ∀ rem a, (fetch_from size responses urandom a rem).length = size := by
    intro rem
    induction rem with
    | zero => intro a; simp [fetch_from, os_urandom]
    | succ n ih =>
      intro a
      rw [fetch_from]
      cases hres : attempt_key (responses a) with
      | none => exact ih (a + 1)
      | some vals => exact h a vals hres
  exact main retries 0

/-- Witness for C3 (amended): every attempt errors out, so the hypothesis is
vacuous and the fallback returns 4 bytes. -/
theorem C3_fetch_length_witness :
    (fetch_quantum_key 4 2 (fun _ => QrngOutcome.netError) (fun _ => 7)).length = 4 :=
  C3_fetch_length 4 2 (fun _ => QrngOutcome.netError) (fun _ => 7)
    (by intro i vals h; simp [attempt_key] at h)

/-- Claim C4: `fetch_quantum_key` is a total function (every attempt outcome,
including raised errors, is absorbed by the loop), and when every attempt
within the retry budget fails it returns exactly the `size` local fallback
bytes — `EntropyUnavailable` is recovered internally, never surfaced. -/
theorem C4_fetch_fallback (size retries : Nat) (responses : Nat → QrngOutcome)
    (urandom : Nat → Nat)
    (h : ∀ i, i < retries → attempt_key (responses i) = none) :
    fetch_quantum_key size retries responses urandom = os_urandom urandom size ∧
      (fetch_quantum_key size retries responses urandom).length = size := by
  have main : ∀ rem a, (∀ i, a ≤ i → i < a + rem → attempt_key (responses i) = none) →
      fetch_from size responses urandom a rem = os_urandom urandom size := by
    intro rem
    induction rem with
    | zero => intro a _; rfl
    | succ n ih =>
      intro a ha
      rw [fetch_from, ha a (le_refl a) (by omega)]
      exact ih (a + 1) (fun i h1 h2 => ha i (by omega) (by omega))
  have heq : fetch_quantum_key size retries responses urandom = os_urandom urandom size :=
    main retries 0 (fun i _ h2 => h i (by omega))
  refine ⟨heq, ?_⟩
  rw [heq]
  simp [os_urandom]

/-- Witness for C4: the endpoint always reports failure; with 3 retries and
size 16 the result is the 16 fallback bytes. -/
theorem C4_fetch_fallback_witness :
    fetch_quantum_key 16 3 (fun _ => QrngOutcome.failureFlag) (fun i => i)
        = os_urandom (fun i => i) 16 ∧
      (fetch_quantum_key 16 3 (fun _ => QrngOutcome.failureFlag) (fun i => i)).length = 16 :=
  C4_fetch_fallback 16 3 (fun _ => QrngOutcome.failureFlag) (fun i => i)
    (fun i _ => rfl)

/-! ## Machine float values on the decode path

Decrypted bytes are reinterpreted by numpy (`np.frombuffer`); an IEEE-754
double decoded from arbitrary bytes is either a finite rational, NaN, or an
infinity, so float values on this path are modelled exactly by `F64`. -/

inductive F64
  | finite (q : ℚ)
  | nan
  | inf
  | ninf
deriving DecidableEq

/-- The `Nat` whose little-endian base-256 digits are the given bytes. -/
def le_bytes_to_nat (bs : List Nat) : Nat :=
  bs.foldr (fun b acc => b % 256 + 256 * acc) 0

/-- Decode 8 little-endian bytes as an IEEE-754 binary64 value: sign bit 63,
11 exponent bits, 52 mantissa bits; exponent 2047 encodes infinities and
NaNs, exponent 0 the subnormals. -/
def decode_f64 (bs : List Nat) : F64 :=
  let bits : Nat := le_bytes_to_nat bs
  let sign : Nat := bits / 2 ^ 63 % 2
  let e : Nat := bits / 2 ^ 52 % 2 ^ 11
  let m : Nat := bits % 2 ^ 52
  if e = 2047 then
    if m = 0 then (if sign = 1 then F64.ninf else F64.inf) else F64.nan
  else
    let mag : ℚ :=
      if e = 0 then (m : ℚ) / ((2 ^ 1074 : ℕ) : ℚ)
      else if 1075 ≤ e then (((2 ^ 52 + m) * 2 ^ (e - 1075) : ℕ) : ℚ)
      else ((2 ^ 52 + m : ℕ) : ℚ) / ((2 ^ (1075 - e) : ℕ) : ℚ)
    F64.finite (if sign = 1 then -mag else mag)

/-- `np.frombuffer(b, dtype=np.float64)` on a byte string whose length is a
multiple of 8: consecutive 8-byte groups decoded as binary64. -/
def f64_frombuffer (b : List Nat) : List F64 :=
  (List.range (b.length / 8)).map (fun i => decode_f64 ((b.drop (8 * i)).take 8))

/-- `np.frombuffer(b, dtype=np.int16)`: consecutive little-endian 16-bit
two's-complement integers. -/
def i16_frombuffer (b : List Nat) : List ℤ :=
  (List.range (b.length / 2)).map (fun i =>
    let u := b.getD (2 * i) 0 % 256 + 256 * (b.getD (2 * i + 1) 0 % 256)
    if u < 32768 then (u : ℤ) else (u : ℤ) - 65536)

/-- `np.abs` on one float. -/
def f64_abs : F64 → F64
  | .finite q => .finite |q|
  | .nan => .nan
  | .inf => .inf
  | .ninf => .inf

/-- IEEE greater-than, as used by numpy comparisons: any comparison with NaN
is false. -/
def f64_gt : F64 → F64 → Bool
  | .nan, _ => false
  | _, .nan => false
  | .inf, .inf => false
  | .inf, _ => true
  | .ninf, _ => false
  | .finite _, .inf => false
  | .finite _, .ninf => true
  | .finite a, .finite b => decide (b < a)

/-- numpy's `maximum` reduction step: NaN propagates, otherwise the larger
value. -/
def f64_max : F64 → F64 → F64
  | .nan, _ => .nan
  | _, .nan => .nan
  | .inf, _ => .inf
  | _, .inf => .inf
  | .ninf, x => x
  | x, .ninf => x
  | .finite a, .finite b => .finite (max a b)

/-- `np.max(np.abs(xs))` over a nonempty array (numpy raises on an empty
one; the program checks emptiness first, so the `[]` branch is arbitrary). -/
def f64_max_abs (xs : List F64) : F64 :=
  match xs with
  | [] => F64.nan
  | h :: t => t.foldl (fun acc x => f64_max acc (f64_abs x)) (f64_abs h)

/-- The implausibility threshold `1e10` of the float64 probe. -/
def f64_threshold : F64 := F64.finite ((10 : ℚ) ^ 10)

/-- The float64 probe of `decrypt_audio`: `np.frombuffer` raises unless the
length is a multiple of 8; an empty result raises; a maximum absolute value
strictly greater than `1e10` raises.  Any raise falls through to the next
probe. -/
def try_float64 (b : List Nat) : Option (List F64) :=
  if b.length % 8 ≠ 0 then none
  else
    let xs := f64_frombuffer b
    if xs.length = 0 then none
    else if f64_gt (f64_max_abs xs) f64_threshold then none
    else some xs

/-- The int16 interpretation rescaled to floats: `int16_data / 32767.0`. -/
def i16_signal (b : List Nat) : List F64 :=
  (i16_frombuffer b).map (fun v => F64.finite ((v : ℚ) / 32767))

/-- The int16 probe: `np.frombuffer` raises unless the length is a multiple
of 2; an empty result raises. -/
def try_int16 (b : List Nat) : Option (List F64) :=
  if b.length % 2 ≠ 0 then none
  else if b.length / 2 = 0 then none
  else some (i16_signal b)

/-- The last-resort interpretation: unsigned 8-bit PCM rescaled via
`value / 128 − 1`. -/
def u8_signal (b : List Nat) : List F64 :=
  b.map (fun v => F64.finite ((v % 256 : ℕ) / (128 : ℚ) - 1))

/-- The no-metadata decode resolver of `decrypt_audio`: probe float64, then
int16, then raw uint8, keeping the first interpretation that does not
raise. -/
def detect_signal (b : List Nat) : List F64 :=
  match try_float64 b with
  | some xs => xs
  | none =>
    match try_int16 b with
    | some xs => xs
    | none => u8_signal b

theorem try_float64_none_of_reject (b : List Nat)
    (h : b.length % 8 ≠ 0 ∨ f64_frombuffer b = [] ∨
      f64_gt (f64_max_abs (f64_frombuffer b)) f64_threshold = true) :
    try_float64 b = none := by
  rcases h with h | h | h
  · simp [try_float64, h]
  · simp [try_float64, h]
  · simp [try_float64, h]

/-- Claim C5 counterexample: decrypted bytes decoding to the single float64
value 1e10 have a maximum absolute value that is not below the threshold
1e10, yet the float64 interpretation is accepted (the code only rejects a
maximum strictly above 1e10). -/
theorem C5_threshold_counterexample :
    f64_frombuffer [0, 0, 0, 32, 95, 160, 2, 66] = [F64.finite ((10 : ℚ) ^ 10)] ∧
      f64_max_abs [F64.finite ((10 : ℚ) ^ 10)] = F64.finite ((10 : ℚ) ^ 10) ∧
      ¬ ((10 : ℚ) ^ 10 < (10 : ℚ) ^ 10) ∧
      detect_signal [0, 0, 0, 32, 95, 160, 2, 66] = [F64.finite ((10 : ℚ) ^ 10)] := by
  have hdec : f64_frombuffer [0, 0, 0, 32, 95, 160, 2, 66] = [F64.finite ((10 : ℚ) ^ 10)] := by
    norm_num [f64_frombuffer, decode_f64, le_bytes_to_nat, List.range_succ]
  have hgt : f64_gt (f64_max_abs [F64.finite ((10 : ℚ) ^ 10)]) f64_threshold = false := by
    norm_num [f64_max_abs, f64_abs, f64_gt, f64_threshold, abs_of_nonneg]
  refine ⟨hdec, ?_, by norm_num, ?_⟩
  · norm_num [f64_max_abs, f64_abs, abs_of_nonneg]
  · simp [detect_signal, try_float64, hdec, hgt]

/-- Claim C5 (amended): with no usable metadata the decoder probes float64,
then int16, then uint8.  The float64 interpretation is accepted when the
bytes decode (length a positive multiple of 8) and the maximum absolute
value does not strictly exceed `1e10` (so maxima equal to the threshold, and
NaN maxima, are accepted); otherwise the int16 interpretation (values
divided by 32767) is used when the length is a positive multiple of 2;
otherwise the bytes are read as unsigned 8-bit PCM via `value/128 - 1`.
The first accepted interpretation is returned and later steps never run. -/
theorem C5_probe_order (b : List Nat) :
    (b.length % 8 = 0 → f64_frombuffer b ≠ [] →
        f64_gt (f64_max_abs (f64_frombuffer b)) f64_threshold = false →
        detect_signal b = f64_frombuffer b)
    ∧ ((b.length % 8 ≠ 0 ∨ f64_frombuffer b = [] ∨
          f64_gt (f64_max_abs (f64_frombuffer b)) f64_threshold = true) →
        b.length % 2 = 0 → b.length / 2 ≠ 0 →
        detect_signal b = i16_signal b)
    ∧ ((b.length % 8 ≠ 0 ∨ f64_frombuffer b = [] ∨
          f64_gt (f64_max_abs (f64_frombuffer b)) f64_threshold = true) →
        (b.length % 2 ≠ 0 ∨ b.length / 2 = 0) →
        detect_signal b = u8_signal b) := by
  refine ⟨?_, ?_, ?_⟩
  · intro h8 hne hgt
    simp [detect_signal, try_float64, h8, hgt, List.length_eq_zero, hne]
  · intro hrej h2 hd
    rw [detect_signal, try_float64_none_of_reject b hrej]
    simp [try_int16, h2, hd]
  · intro hrej hrej2
    rw [detect_signal, try_float64_none_of_reject b hrej]
    rcases hrej2 with h | h
    · simp [try_int16, h]
    · simp [try_int16, h]

/-- Witness for C5 at the 8-byte encoding of the float64 value 1.0: the
float64 probe accepts and the decoded buffer is returned. -/
theorem C5_probe_order_witness :
    detect_signal [0, 0, 0, 0, 0, 0, 240, 63]
      = f64_frombuffer [0, 0, 0, 0, 0, 0, 240, 63] :=
  (C5_probe_order [0, 0, 0, 0, 0, 0, 240, 63]).1 (by norm_num)
    (by norm_num [f64_frombuffer, decode_f64, le_bytes_to_nat, List.range_succ])
    (by
      have hdec : f64_frombuffer [0, 0, 0, 0, 0, 0, 240, 63] = [F64.finite 1] := by
        norm_num [f64_frombuffer, decode_f64, le_bytes_to_nat, List.range_succ]
      rw [hdec]
      norm_num [f64_max_abs, f64_abs, f64_gt, f64_threshold, abs_of_nonneg])

/-! ## Post-processing of the decoded signal (`decrypt_audio` lines 462-472) -/

/-- IEEE division as performed by numpy when rescaling by the maximum. -/
def f64_div (a b : F64) : F64 :=
  match a, b with
  | .nan, _ => .nan
  | _, .nan => .nan
  | .finite q, .finite r =>
    if r = 0 then (if q = 0 then .nan else if 0 < q then .inf else .ninf)
    else .finite (q / r)
  | .inf, .finite r => if 0 ≤ r then .inf else .ninf
  | .ninf, .finite r => if 0 ≤ r then .ninf else .inf
  | _, .inf => .finite 0
  | _, .ninf => .finite 0

/-- `np.clip(x, -1.0, 1.0)` on one value: NaN propagates, infinities land on
the bounds, finite values are clamped. -/
def np_clip_unit (x : F64) : F64 :=
  match x with
  | .nan => .nan
  | .inf => .finite 1
  | .ninf => .finite (-1)
  | .finite q => .finite (min 1 (max (-1) q))

/-- The unconditional post-processing of `decrypt_audio`: rescale by the
maximum absolute value when it exceeds 1.0 (a NaN maximum fails the
comparison, so no rescale), then clip every sample to [-1, 1]. -/
def postprocess (xs : List F64) : List F64 :=
  let m := f64_max_abs xs
  let ys := if f64_gt m (F64.finite 1) then xs.map (fun x => f64_div x m) else xs
  ys.map np_clip_unit

/-- The decode resolver of `decrypt_audio` on the no-metadata path: the
probing chain followed by the unconditional post-processing. -/
def decrypt_detected_signal (b : List Nat) : List F64 :=
  postprocess (detect_signal b)

/-- Whether a sample is a number in the normalized range [-1, 1]. -/
def f64_in_unit (x : F64) : Bool :=
  match x with
  | .finite q => decide (-1 ≤ q ∧ q ≤ 1)
  | _ => false

/-! ## Recording session (`start_recording`, `stop_recording`,
`audio_recorder_callback`, `record_audio_only`)

The global mutable state of the program is the `recording_active` flag and
the FIFO chunk queue; a chunk is the flat list of samples delivered by one
capture callback, modelled as rationals. -/

structure ServerState where
  recording_active : Bool
  audio_queue : List (List ℚ)
deriving DecidableEq

/-- `audio_queue.put(...)`: FIFO append at the tail. -/
def queue_put (q : List (List ℚ)) (c : List ℚ) : List (List ℚ) := q ++ [c]

/-- The capture callback: a copy of the delivered chunk is enqueued only
while `recording_active` holds. -/
def audio_recorder_callback (active : Bool) (q : List (List ℚ)) (indata : List ℚ) :
    List (List ℚ) :=
  if active then queue_put q indata else q

/-- The `while not audio_queue.empty(): audio_queue.get()` drain of
`stop_recording`: chunks leave the queue from the head, in FIFO order. -/
def drain_queue : List (List ℚ) → List (List ℚ)
  | [] => []
  | c :: rest => c :: drain_queue rest

/-- `np.max(np.abs(xs))` on rational samples (the fold starts at 0, which
equals the numpy maximum for the nonempty buffers the program takes it on,
all absolute values being nonnegative). -/
def max_abs (xs : List ℚ) : ℚ := xs.foldl (fun a x => max a |x|) 0

/-- The normalization step shared by `stop_recording` and
`record_audio_only`: divide by the maximum absolute amplitude when it
exceeds 1.0, otherwise leave the signal alone.  No clipping follows on
these paths. -/
def normalize_signal (xs : List ℚ) : List ℚ :=
  if 1 < max_abs xs then xs.map (fun x => x / max_abs xs) else xs

inductive StartResult
  | started
  | conflict
deriving DecidableEq

/-- `start_recording`: the handler clears any residual queued chunks, sets
`recording_active` and reports success.  It never inspects the current
state, so `StartResult.conflict` (the `SessionConflict` of the spec) is
never produced. -/
def start_recording (s : ServerState) : ServerState × StartResult :=
  ({ recording_active := true, audio_queue := [] }, StartResult.started)

inductive StopResult
  | notActive
  | noData
  | ok (buffer : List ℚ)
deriving DecidableEq

/-- `stop_recording`: reject when not recording; otherwise clear the flag,
drain the queue, fail with `noData` when no chunks were captured, and
otherwise return the concatenated, normalized sample buffer. -/
def stop_recording (s : ServerState) : ServerState × StopResult :=
  if s.recording_active = false then (s, StopResult.notActive)
  else
    let chunks := drain_queue s.audio_queue
    if chunks = [] then ({ recording_active := false, audio_queue := [] }, StopResult.noData)
    else
      ({ recording_active := false, audio_queue := [] },
        StopResult.ok (normalize_signal chunks.flatten))

/-- The legacy fixed-duration endpoint `record_audio_only`: a one-shot
capture followed by the same normalization, no state machine involved. -/
def record_only_buffer (samples : List ℚ) : List ℚ := normalize_signal samples

/-- Claim C6 (the code's actual behavior, contradicting the claim): calling
`start_recording` while already recording silently clears the queue and
restarts, reporting success — no `SessionConflict` is surfaced. -/
theorem C6_start_silently_restarts (q : List (List ℚ)) :
    start_recording { recording_active := true, audio_queue := q }
        = ({ recording_active := true, audio_queue := [] }, StartResult.started) ∧
      (start_recording { recording_active := true, audio_queue := q }).2
        ≠ StartResult.conflict := by
  constructor
  · rfl
  · intro h
    simp [start_recording] at h

/-- Claim C7: stopping while recording with an empty chunk queue yields the
`noData` failure (the reported "no audio data recorded" error) and no
sample buffer. -/
theorem C7_stop_no_data (s : ServerState)
    (h1 : s.recording_active = true) (h2 : s.audio_queue = []) :
    stop_recording s = ({ recording_active := false, audio_queue := [] }, StopResult.noData) := by
  simp [stop_recording, h1, h2, drain_queue]

/-- Witness for C7 at the concrete state reached right after `start()`. -/
theorem C7_stop_no_data_witness :
    stop_recording { recording_active := true, audio_queue := [] }
      = ({ recording_active := false, audio_queue := [] }, StopResult.noData) :=
  C7_stop_no_data { recording_active := true, audio_queue := [] } rfl rfl

theorem drain_queue_eq (q : List (List ℚ)) : drain_queue q = q := by
  induction q with
  | nil => rfl
  | cons c rest ih => rw [drain_queue, ih]

theorem foldl_queue_put (cs : List (List ℚ)) :
    ∀ q : List (List ℚ), cs.foldl (fun a c => audio_recorder_callback true a c) q = q ++ cs := by
  induction cs with
  | nil => intro q; simp
  | cons c rest ih =>
    intro q
    rw [List.foldl_cons, ih]
    simp [audio_recorder_callback, queue_put]

/-- Claim C9: the buffer assembled by the `stop()` drain is the
concatenation of exactly the chunks the callback enqueued, in enqueue
order — nothing reordered, dropped, or duplicated. -/
theorem C9_fifo_concatenation (cs : List (List ℚ)) :
    drain_queue (cs.foldl (fun q c => audio_recorder_callback true q c) []) = cs ∧
      (drain_queue (cs.foldl (fun q c => audio_recorder_callback true q c) [])).flatten
        = cs.flatten := by
  have h : drain_queue (cs.foldl (fun q c => audio_recorder_callback true q c) []) = cs := by
    rw [foldl_queue_put cs [], drain_queue_eq]
    simp
  exact ⟨h, by rw [h]⟩

theorem le_foldl_max_abs (xs : List ℚ) :
    ∀ a : ℚ, a ≤ xs.foldl (fun b y => max b |y|) a := by
  induction xs with
  | nil => intro a; exact le_refl a
  | cons x xs ih =>
    intro a
    calc a ≤ max a |x| := le_max_left a |x|
    _ ≤ xs.foldl (fun b y => max b |y|) (max a |x|) := ih (max a |x|)

theorem abs_le_max_abs (xs : List ℚ) (x : ℚ) (hx : x ∈ xs) : |x| ≤ max_abs xs := by
  rw [max_abs]
  have main : ∀ (ys : List ℚ) (a : ℚ), x ∈ ys → |x| ≤ ys.foldl (fun b y => max b |y|) a := by
    intro ys
    induction ys with
    | nil => intro a ha; simp at ha
    | cons y ys ih =>
      intro a ha
      rcases List.mem_cons.mp ha with h | h
      · subst h
        calc |x| ≤ max a |x| := le_max_right a |x|
        _ ≤ ys.foldl (fun b y => max b |y|) (max a |x|) := le_foldl_max_abs ys (max a |x|)
      · exact ih (max a |y|) h
  exact main xs 0 hx

theorem normalize_signal_mem_unit (xs : List ℚ) :
    ∀ y ∈ normalize_signal xs, -1 ≤ y ∧ y ≤ 1 := by
  intro y hy
  rw [normalize_signal] at hy
  by_cases h : 1 < max_abs xs
  · rw [if_pos h] at hy
    obtain ⟨x, hx, rfl⟩ := List.mem_map.mp hy
    have hM : 0 < max_abs xs := lt_trans zero_lt_one h
    have habs : |x / max_abs xs| ≤ 1 := by
      rw [abs_div, abs_of_pos hM]
      exact (div_le_one hM).mpr (abs_le_max_abs xs x hx)
    exact abs_le.mp habs
  · rw [if_neg h] at hy
    have habs : |y| ≤ 1 := le_trans (abs_le_max_abs xs y hy) (le_of_not_lt h)
    exact abs_le.mp habs

/-- Claim C8 counterexample: 8 decrypted bytes encoding a float64 NaN pass
the probe (NaN fails every comparison, including the implausibility check),
skip the rescale (the NaN maximum fails the `> 1.0` test) and pass through
`np.clip` unchanged, so the resolver's buffer contains a sample that is not
in [-1, 1]. -/
theorem C8_nan_counterexample :
    decrypt_detected_signal [0, 0, 0, 0, 0, 0, 248, 127] = [F64.nan] ∧
      f64_in_unit F64.nan = false := by
  have hdec : f64_frombuffer [0, 0, 0, 0, 0, 0, 248, 127] = [F64.nan] := by
    norm_num [f64_frombuffer, decode_f64, le_bytes_to_nat, List.range_succ]
  have hdet : detect_signal [0, 0, 0, 0, 0, 0, 248, 127] = [F64.nan] := by
    simp [detect_signal, try_float64, hdec, f64_max_abs, f64_abs, f64_gt]
  constructor
  · rw [decrypt_detected_signal, hdet]
    rfl
  · rfl

/-- Claim C8 (amended): the buffers produced by `stop_recording` and by the
legacy capture contain only samples in [-1, 1]; the decode resolver's
post-processed buffer contains only samples that are either NaN (which
survives normalization and clipping unchanged) or numbers in [-1, 1]. -/
theorem C8_sample_range :
    (∀ (s st : ServerState) (buf : List ℚ),
        stop_recording s = (st, StopResult.ok buf) → ∀ x ∈ buf, -1 ≤ x ∧ x ≤ 1)
    ∧ (∀ samples : List ℚ, ∀ x ∈ record_only_buffer samples, -1 ≤ x ∧ x ≤ 1)
    ∧ (∀ xs : List F64, ∀ y ∈ postprocess xs, y = F64.nan ∨ f64_in_unit y = true) := by
  refine ⟨?_, ?_, ?_⟩
  · intro s st buf h x hx
    by_cases ha : s.recording_active = false
    · simp [stop_recording, ha] at h
    · by_cases hc : drain_queue s.audio_queue = []
      · simp [stop_recording, ha, hc] at h
      · simp [stop_recording, ha, hc] at h
        obtain ⟨-, hbuf⟩ := h
        rw [← hbuf] at hx
        exact normalize_signal_mem_unit _ x hx
  · intro samples x hx
    rw [record_only_buffer] at hx
    exact normalize_signal_mem_unit samples x hx
  · intro xs y hy
    rw [postprocess] at hy
    obtain ⟨z, _, rfl⟩ := List.mem_map.mp hy
    cases z with
    | nan => exact Or.inl rfl
    | inf =>
      refine Or.inr ?_
      simp [np_clip_unit, f64_in_unit]
    | ninf =>
      refine Or.inr ?_
      simp [np_clip_unit, f64_in_unit]
    | finite q =>
      refine Or.inr ?_
      simp only [np_clip_unit, f64_in_unit, decide_eq_true_eq]
      constructor
      · exact le_min (by norm_num) (le_max_left (-1) q)
      · exact min_le_left 1 (max (-1) q)

/-- Witness for C8 (amended): a concrete stop with one over-range chunk
yields the in-range buffer [1], and a concrete resolver sample is in
range. -/
theorem C8_sample_range_witness :
    ((-1 : ℚ) ≤ 1 ∧ (1 : ℚ) ≤ 1) ∧
      (F64.finite 1 = F64.nan ∨ f64_in_unit (F64.finite 1) = true) := by
  constructor
  · refine C8_sample_range.1 ⟨true, [[2]]⟩ ⟨false, []⟩ [1] ?_ 1 (by simp)
    norm_num [stop_recording, drain_queue, normalize_signal, max_abs]
  · refine C8_sample_range.2.2 [F64.finite 1] (F64.finite 1) ?_
    norm_num [postprocess, f64_max_abs, f64_abs, f64_gt, np_clip_unit]

/-! ## 16-bit quantization for the WAV container
(`audio_16bit = np.int16(signal * 32767)` in `decrypt_audio` and
`convert_to_wav`) -/

/-- Truncation toward zero, the semantics of a numpy C-style cast of a float
to `np.int16` for values within range. -/
def rat_trunc (q : ℚ) : ℤ := if 0 ≤ q then ⌊q⌋ else ⌈q⌉

/-- One sample of `np.int16(signal * 32767)`: scale by 32767 and cast,
i.e. truncate toward zero.  No rounding and no clamping is performed. -/
def audio_16bit_sample (s : ℚ) : ℤ := rat_trunc (s * 32767)

/-- The quantizer the spec describes: `round(sample × 32767)` clamped to the
signed 16-bit range.  Stated from the spec's words, for comparison with the
implementation's `audio_16bit_sample`. -/
def spec_quantize_sample (s : ℚ) : ℤ :=
  max (-32768) (min 32767 (round (s * 32767)))

/-- Claim C2 counterexample: at the in-range sample 1/2 the code truncates
0.5 × 32767 = 16383.5 down to 16383, while the spec's round-then-clamp
gives 16384. -/
theorem C2_rounding_counterexample :
    ((-1 : ℚ) ≤ 1 / 2 ∧ (1 / 2 : ℚ) ≤ 1) ∧
      audio_16bit_sample (1 / 2) = 16383 ∧
      spec_quantize_sample (1 / 2) = 16384 ∧
      (16383 : ℤ) ≠ 16384 := by
  refine ⟨by norm_num, ?_, ?_, by decide⟩
  · rw [audio_16bit_sample, rat_trunc, if_pos (by norm_num)]
    norm_num
  · rw [spec_quantize_sample]
    norm_num [round_eq]

/-- Claim C2 (amended): the container-writing step quantizes each sample by
truncating `s × 32767` toward zero (a C-style cast, not rounding), with no
explicit clamping; for the samples in [-1, 1] that reach it after the clip
step, the result nevertheless always lies within the signed 16-bit
range. -/
theorem C2_truncation_range (s : ℚ) (h1 : -1 ≤ s) (h2 : s ≤ 1) :
    audio_16bit_sample s = rat_trunc (s * 32767) ∧
      -32767 ≤ audio_16bit_sample s ∧ audio_16bit_sample s ≤ 32767 := by
  refine ⟨rfl, ?_⟩
  have hq1 : (-32767 : ℚ) ≤ s * 32767 := by nlinarith
  have hq2 : s * 32767 ≤ (32767 : ℚ) := by nlinarith
  rw [audio_16bit_sample, rat_trunc]
  by_cases h0 : (0 : ℚ) ≤ s * 32767
  · rw [if_pos h0]
    constructor
    · have : (0 : ℤ) ≤ ⌊s * 32767⌋ := Int.floor_nonneg.mpr h0
      omega
    · have : ((⌊s * 32767⌋ : ℤ) : ℚ) ≤ 32767 := le_trans (Int.floor_le _) hq2
      exact_mod_cast this
  · rw [if_neg h0]
    constructor
    · have : (-32767 : ℚ) ≤ ((⌈s * 32767⌉ : ℤ) : ℚ) := le_trans hq1 (Int.le_ceil _)
      exact_mod_cast this
    · have : ⌈s * 32767⌉ ≤ (0 : ℤ) := Int.ceil_le.mpr (by push_cast; linarith [le_of_not_le h0])
      omega

/-- Witness for C2 (amended) at the sample 1/2. -/
theorem C2_truncation_range_witness :
    audio_16bit_sample (1 / 2) = rat_trunc ((1 / 2 : ℚ) * 32767) ∧
      -32767 ≤ audio_16bit_sample (1 / 2) ∧ audio_16bit_sample (1 / 2) ≤ 32767 :=
  C2_truncation_range (1 / 2) (by norm_num) (by norm_num)

/-! ## Metadata attached by `encrypt_audio` -/

/-- The `data_type` / `shape` metadata computed by `encrypt_audio` before
encrypting: a length that is a positive multiple of 8 is classified as
float64 of shape [length / 8] (`np.frombuffer` succeeds and is nonempty);
everything else falls back to raw bytes of shape [length]. -/
def encrypt_metadata (b : List Nat) : String × List Nat :=
  if b.length % 8 = 0 then
    if 0 < b.length / 8 then ("float64", [b.length / 8])
    else ("bytes", [b.length])
  else ("bytes", [b.length])

/-- Claim C10: the metadata returned by `encrypt_audio` classifies the
payload purely by length: data_type "float64" with shape [len / 8] exactly
when the decoded byte length is a positive multiple of 8, and "bytes" with
shape [len] otherwise. -/
theorem C10_metadata_classification (b : List Nat) :
    (encrypt_metadata b = ("float64", [b.length / 8]) ↔
        (0 < b.length ∧ b.length % 8 = 0))
    ∧ (¬(0 < b.length ∧ b.length % 8 = 0) →
        encrypt_metadata b = ("bytes", [b.length])) := by
  constructor
  · constructor
    · intro h
      by_cases h8 : b.length % 8 = 0
      · by_cases hp : 0 < b.length / 8
        · refine ⟨?_, h8⟩
          omega
        · simp [encrypt_metadata, h8, hp] at h
      · simp [encrypt_metadata, h8] at h
    · rintro ⟨hp, h8⟩
      have hdiv : 0 < b.length / 8 := by omega
      simp [encrypt_metadata, h8, hdiv]
  · intro h
    by_cases h8 : b.length % 8 = 0
    · have hp : ¬ 0 < b.length / 8 := by omega
      simp [encrypt_metadata, h8, hp]
    · simp [encrypt_metadata, h8]

/-- Witness for C10: a 16-byte payload is classified float64 with shape [2],
a 1-byte payload as raw bytes with shape [1]. -/
theorem C10_metadata_classification_witness :
    encrypt_metadata (List.replicate 16 0) = ("float64", [2]) ∧
      encrypt_metadata [1] = ("bytes", [1]) := by
  constructor
  · have h := (C10_metadata_classification (List.replicate 16 0)).1.mpr (by simp)
    simpa using h
  · exact (C10_metadata_classification [1]).2 (by simp)
